import Mathlib

/-!
Shallow embedding of the region-classification and sequence-extraction
engine of `tool/summary.py` (functions `regions`, `refextract`, `unmapsum`,
`refstats`, `extract_main`), together with theorems settling the frozen
claims about it.

Conventions:
 - pandas data frames of coordinate rows become lists of `CoordRecord`;
 - Python strings of nucleotides become `List Nucleotide`;
 - Python dictionaries (insertion ordered) become association lists with
   Python `dict` update/pop semantics;
 - Python slice resolution (including negative-index wrap-around) is
   modelled by `pyIndex`/`pySlice`;
 - runtime exceptions (`ZeroDivisionError`, `NameError`) become
   `Except String` results.
-/

/-- One row of the backbone coordinate table, columns
`seq0_leftend, seq0_rightend, seq1_leftend, seq1_rightend`. -/
structure CoordRecord where
  seq0_leftend : Int
  seq0_rightend : Int
  seq1_leftend : Int
  seq1_rightend : Int
deriving DecidableEq, Repr

abbrev CoordTable := List CoordRecord

/-- A `(start, end)` coordinate pair kept by one category table. -/
abbrev CoordPair := Int × Int

/-- Record-level predicate of the mapped category: assembly endpoints
(`seq1`) both positive and reference endpoints (`seq0`) both positive,
as in the two chained filters of `regions`. -/
def mappedP (r : CoordRecord) : Bool :=
  (decide (0 < r.seq1_leftend) && decide (0 < r.seq1_rightend)) &&
    (decide (0 < r.seq0_leftend) && decide (0 < r.seq0_rightend))

/-- Record-level predicate of the unmapped category: assembly endpoints
both zero. -/
def unmappedP (r : CoordRecord) : Bool :=
  decide (r.seq1_leftend = 0) && decide (r.seq1_rightend = 0)

/-- Record-level predicate of the conflict category: reference endpoints
both zero. -/
def conflictP (r : CoordRecord) : Bool :=
  decide (r.seq0_leftend = 0) && decide (r.seq0_rightend = 0)

/-- `mappedlocations` of `regions`: filter on positive assembly
endpoints, project to the reference columns, then filter on positive
reference endpoints. -/
def mappedlocations (t : CoordTable) : List CoordPair :=
  ((t.filter fun r => decide (0 < r.seq1_leftend) && decide (0 < r.seq1_rightend)).map
      fun r => (r.seq0_leftend, r.seq0_rightend)).filter
    fun p => decide (0 < p.1) && decide (0 < p.2)

/-- `unmappedlocations` of `regions`: rows with both assembly endpoints
zero, projected to the reference columns. -/
def unmappedlocations (t : CoordTable) : List CoordPair :=
  (t.filter fun r => decide (r.seq1_leftend = 0) && decide (r.seq1_rightend = 0)).map
    fun r => (r.seq0_leftend, r.seq0_rightend)

/-- `conflictlocations` of `regions`: rows with both reference endpoints
zero, projected to the assembly columns. -/
def conflictlocations (t : CoordTable) : List CoordPair :=
  (t.filter fun r => decide (r.seq0_leftend = 0) && decide (r.seq0_rightend = 0)).map
    fun r => (r.seq1_leftend, r.seq1_rightend)

/-- `reverselocations` of `regions`: filter on positive assembly
endpoints, project to the reference columns, then filter on negative
reference endpoints. -/
def reverselocations (t : CoordTable) : List CoordPair :=
  ((t.filter fun r => decide (0 < r.seq1_leftend) && decide (0 < r.seq1_rightend)).map
      fun r => (r.seq0_leftend, r.seq0_rightend)).filter
    fun p => decide (p.1 < 0) && decide (p.2 < 0)

/-- `regions`: the four category tables, in the order returned by the
source. -/
def regions (t : CoordTable) :
    List CoordPair × List CoordPair × List CoordPair × List CoordPair :=
  (mappedlocations t, unmappedlocations t, conflictlocations t, reverselocations t)

/-- The staged filters of `mappedlocations` agree with the record-level
predicate `mappedP`. -/
theorem mappedlocations_eq_filter (t : CoordTable) :
    mappedlocations t = (t.filter mappedP).map fun r => (r.seq0_leftend, r.seq0_rightend) := by
  induction t with
  | nil => rfl
  | cons r t ih =>
      simp only [mappedlocations, List.filter_cons, mappedP] at *
      by_cases h1 : (decide (0 < r.seq1_leftend) && decide (0 < r.seq1_rightend)) = true
      · simp only [h1, if_true, List.map_cons, List.filter_cons]
        by_cases h0 : (decide (0 < r.seq0_leftend) && decide (0 < r.seq0_rightend)) = true
        · simp [h0, ih]
        · simp [h0, ih]
      · simp [h1, ih]

/-- The final filter of `reverselocations` agrees with recovering the
reference pair of records satisfying the assembly-positive prefilter with
negative reference endpoints. -/
theorem reverselocations_mem (t : CoordTable) (p : CoordPair)
    (hp : p ∈ reverselocations t) : p.1 < 0 ∧ p.2 < 0 := by
  simp only [reverselocations, List.mem_filter, Bool.and_eq_true, decide_eq_true_eq] at hp
  exact hp.2

/-- A nucleotide of the (unambiguous) reference sequence alphabet. -/
inductive Nucleotide where
  | A | C | G | T
deriving DecidableEq, Repr

/-- A nucleotide sequence (Python string of `ACGT`). -/
abbrev Dna := List Nucleotide

/-- Watson-Crick complement of one nucleotide. -/
def complementN : Nucleotide → Nucleotide
  | .A => .T
  | .C => .G
  | .G => .C
  | .T => .A

/-- `Seq.reverse_complement` from Biopython. -/
def reverseComplement (s : Dna) : Dna :=
  (s.reverse).map complementN

/-- An amino-acid symbol of a translated frame: the 20 standard residues
plus the stop symbol written `*` by Biopython. -/
inductive AminoAcid where
  | A | R | N | D | C | Q | E | G | H | I | L | K | M | F | P | S | T | W | Y | V
  | Stop
deriving DecidableEq, Repr

/-- NCBI translation table 11 on unambiguous codons (identical to the
standard code for every codon; table 11 differs only in start codons,
which `translate` does not use). -/
def codonTable : Nucleotide → Nucleotide → Nucleotide → AminoAcid
  | .T, .T, .T => .F | .T, .T, .C => .F | .T, .T, .A => .L | .T, .T, .G => .L
  | .C, .T, _ => .L
  | .A, .T, .T => .I | .A, .T, .C => .I | .A, .T, .A => .I | .A, .T, .G => .M
  | .G, .T, _ => .V
  | .T, .C, _ => .S
  | .C, .C, _ => .P
  | .A, .C, _ => .T
  | .G, .C, _ => .A
  | .T, .A, .T => .Y | .T, .A, .C => .Y | .T, .A, .A => .Stop | .T, .A, .G => .Stop
  | .C, .A, .T => .H | .C, .A, .C => .H | .C, .A, .A => .Q | .C, .A, .G => .Q
  | .A, .A, .T => .N | .A, .A, .C => .N | .A, .A, .A => .K | .A, .A, .G => .K
  | .G, .A, .T => .D | .G, .A, .C => .D | .G, .A, .A => .E | .G, .A, .G => .E
  | .T, .G, .T => .C | .T, .G, .C => .C | .T, .G, .A => .Stop | .T, .G, .G => .W
  | .C, .G, _ => .R
  | .A, .G, .T => .S | .A, .G, .C => .S | .A, .G, .A => .R | .A, .G, .G => .R
  | .G, .G, _ => .G

/-- `Seq.translate(table = 11)`: translate consecutive codons, dropping a
trailing partial codon. -/
def translateDna : Dna → List AminoAcid
  | a :: b :: c :: rest => codonTable a b c :: translateDna rest
  | _ => []

/-- The six translated frames built by `unmapsum`, in loop order: forward
strand at offsets 0,1,2, then reverse complement at offsets 0,1,2. -/
def sixFrameCodes (dna : Dna) : List (List AminoAcid) :=
  [translateDna dna, translateDna (dna.drop 1), translateDna (dna.drop 2),
   translateDna (reverseComplement dna), translateDna ((reverseComplement dna).drop 1),
   translateDna ((reverseComplement dna).drop 2)]

/-- Resolution of one Python slice endpoint against a sequence of length
`n`: a negative index wraps around from the end (clamped below at 0), a
non-negative index is clamped above at `n`. -/
def pyIndex (n : Nat) (i : Int) : Nat :=
  if i < 0 then ((n : Int) + i).toNat else min i.toNat n

/-- Python slice `xs[a:b]` (step 1). -/
def pySlice (xs : List α) (a b : Int) : List α :=
  (xs.take (pyIndex xs.length b)).drop (pyIndex xs.length a)

/-- Keys of the dictionaries built by `refextract`: integer keys of the
first pass, string keys after rekeying. -/
abbrev PyKey := Sum Nat String

/-- An insertion-ordered Python dictionary with `Dna` values. -/
abbrev PyDict := List (PyKey × Dna)

/-- Python `d[k] = v`: update the value in place if the key is present,
otherwise append the new entry at the end. -/
def dictInsert [DecidableEq κ] (d : List (κ × ν)) (k : κ) (v : ν) : List (κ × ν) :=
  match d with
  | [] => [(k, v)]
  | (k', v') :: rest => if k' = k then (k', v) :: rest else (k', v') :: dictInsert rest k v

/-- Python `d.pop(k)`: remove the entry with the given key and return its
value (the default is returned when the key is absent, which never
happens in the modelled runs). -/
def dictPopD [DecidableEq κ] (d : List (κ × ν)) (k : κ) (dflt : ν) : ν × List (κ × ν) :=
  match d with
  | [] => (dflt, [])
  | (k', v') :: rest =>
      if k' = k then (v', rest)
      else
        let r := dictPopD rest k dflt
        (r.1, (k', v') :: r.2)

/-- Python `d[k]` as an optional lookup (first entry with the key). -/
def dictLookup [DecidableEq κ] (d : List (κ × ν)) (k : κ) : Option ν :=
  (d.find? fun p => decide (p.1 = k)).map Prod.snd

/-- The first-pass dictionary `{0: v0, 1: v1, ...}` of `refextract`. -/
def initDict (vals : List Dna) : PyDict :=
  vals.enum.map fun p => (Sum.inl p.1, p.2)

/-- One iteration of the rekeying loop of `refextract`:
`d[label] = d.pop(i)`. -/
def rekeyStep (d : PyDict) (i : Nat) (lbl : String) : PyDict :=
  let r := dictPopD d (Sum.inl i) []
  dictInsert r.2 (Sum.inr lbl) r.1

/-- The rekeying loop of `refextract`: `for i in range(0, len(d))`, with
the range evaluated once before the loop. -/
def rekeyLoop (d : PyDict) (lbls : List String) : PyDict :=
  (List.range d.length).foldl (fun acc i => rekeyStep acc i (lbls.getD i "")) d

/-- The `idmap` labels of `refextract`: `prefix_start:end` with the raw
coordinates of each mapped row. -/
def idmapOf (pre : String) (locs : List CoordPair) : List String :=
  locs.map fun p => pre ++ "_" ++ toString p.1 ++ ":" ++ toString p.2

/-- The `idunmap` labels of `refextract`: `prefix_start-flanking:end+flanking`
for each unmapped row. -/
def idunmapOf (pre : String) (flanking : Int) (locs : List CoordPair) : List String :=
  locs.map fun p => pre ++ "_" ++ toString (p.1 - flanking) ++ ":" ++ toString (p.2 + flanking)

/-- The `idconflict` labels of `refextract`: `prefix_start:end` with the
raw coordinates of each conflict row. -/
def idconflictOf (pre : String) (locs : List CoordPair) : List String :=
  locs.map fun p => pre ++ "_" ++ toString p.1 ++ ":" ++ toString p.2

/-- The mapped-region substrings of `refextract`: `read.seq[start:end]`. -/
def mapvalsOf (read : Dna) (locs : List CoordPair) : List Dna :=
  locs.map fun p => pySlice read p.1 p.2

/-- The unmapped-region substrings of `refextract`:
`read.seq[start-flanking:end+flanking]`. -/
def unmapvalsOf (read : Dna) (flanking : Int) (locs : List CoordPair) : List Dna :=
  locs.map fun p => pySlice read (p.1 - flanking) (p.2 + flanking)

/-- The conflict-region substrings of `refextract`: `read.seq[start:end]`
(sliced from the reference, as in the source). -/
def conflictvalsOf (read : Dna) (locs : List CoordPair) : List Dna :=
  locs.map fun p => pySlice read p.1 p.2

/-- `refextract`: build the index-keyed dictionary and the label list for
each category, rekey the dictionaries by label, and return
`(mappeddict, unmappeddict, idunmap, conflictdict)`. -/
def refextract (read : Dna) (mappedlocs unmappedlocs conflictlocs : List CoordPair)
    (pre : String) (flanking : Int) : PyDict × PyDict × List String × PyDict :=
  let mappeddict := rekeyLoop (initDict (mapvalsOf read mappedlocs)) (idmapOf pre mappedlocs)
  let unmappeddict :=
    rekeyLoop (initDict (unmapvalsOf read flanking unmappedlocs))
      (idunmapOf pre flanking unmappedlocs)
  let conflictdict :=
    rekeyLoop (initDict (conflictvalsOf read conflictlocs)) (idconflictOf pre conflictlocs)
  (mappeddict, unmappeddict, idunmapOf pre flanking unmappedlocs, conflictdict)

/-- `SeqUtils.GC`: percentage of G and C over the sequence length, 0 for
an empty sequence (Biopython catches the division by zero there). -/
def gcOf (s : Dna) : ℚ :=
  if s.length = 0 then 0
  else ((s.count Nucleotide.G + s.count Nucleotide.C : Nat) : ℚ) / (s.length : ℚ) * 100

/-- Total residue count `len_seq` across the translated frames. -/
def lenSeq (codes : List (List AminoAcid)) : Nat :=
  (codes.map List.length).sum

/-- Occurrence count of one residue symbol summed across the translated
frames, as accumulated by the per-letter counters of `unmapsum`. -/
def totalCount (a : AminoAcid) (codes : List (List AminoAcid)) : Nat :=
  (codes.map (List.count a)).sum

/-- The residue symbols in the column order of the `amino` table of
`unmapsum` (20 residues, then the appended `Stop` column). -/
def aminoOrder : List AminoAcid :=
  [.A, .D, .E, .G, .F, .L, .Y, .C, .W, .P, .H, .Q, .I, .M, .T, .N, .S, .K, .R, .V, .Stop]

/-- The 21 reported frequencies for one region: each residue's total
count across all six frames, divided by the total residue count across
all six frames, times 100. -/
def aminoFreqs (dna : Dna) : List ℚ :=
  aminoOrder.map fun a =>
    ((totalCount a (sixFrameCodes dna) : ℚ) / (lenSeq (sixFrameCodes dna) : ℚ)) * 100

/-- One row of the unmapped-region statistics table. -/
structure UnmapRow where
  region : String
  gcContent : ℚ
  seqLength : Nat
  freqs : List ℚ
deriving DecidableEq, Repr

/-- `unmapsum`: per-region GC content, length and residue frequencies.
A region whose six-frame translation is empty hits the unguarded
`A/len_seq` division (`ZeroDivisionError`); after the loop the source
executes `codes.clear()`, a `NameError` when the loop body never ran. -/
def unmapsum (unmappeddict : PyDict) (idunmap : List String) :
    Except String (List UnmapRow) := do
  let vals := unmappeddict.map Prod.snd
  let stats ← vals.mapM fun s =>
    if lenSeq (sixFrameCodes s) = 0 then
      Except.error "ZeroDivisionError: division by zero"
    else
      Except.ok (gcOf s, s.length, aminoFreqs s)
  if vals.isEmpty then
    Except.error "NameError: name codes is not defined"
  else
    Except.ok ((List.zip idunmap stats).map fun p =>
      { region := p.1, gcContent := p.2.1, seqLength := p.2.2.1, freqs := p.2.2.2 })

/-- The aggregate statistics record built by `refstats`. -/
structure RefStats where
  gcContent : ℚ
  refLength : Nat
  numberMappedRegions : Nat
  numberUnmappedRegions : Nat
  fractionMapped : ℚ
  fractionUnmapped : ℚ
deriving DecidableEq, Repr

/-- One accumulation loop of `refstats`:
`sum = sum + abs(locs.iloc[i,1] - locs.iloc[i,0])`. -/
def spanSumLoop (locs : List CoordPair) : Int :=
  locs.foldl (fun acc p => acc + |p.2 - p.1|) 0

/-- `refstats`: aggregate statistics over the four category tables and
the reference sequence; an empty reference hits the division in
`FractionMapped` (`ZeroDivisionError`). -/
def refstats (read : Dna) (mappedlocs unmappedlocs conflictlocs reverselocs : List CoordPair) :
    Except String RefStats :=
  let total_map := spanSumLoop mappedlocs + spanSumLoop conflictlocs + spanSumLoop reverselocs
  let sum_unmap := spanSumLoop unmappedlocs
  if read.length = 0 then Except.error "ZeroDivisionError: division by zero"
  else Except.ok
    { gcContent := gcOf read
      refLength := read.length
      numberMappedRegions := mappedlocs.length + reverselocs.length + conflictlocs.length
      numberUnmappedRegions := unmappedlocs.length
      fractionMapped := ((total_map : ℚ) / (read.length : ℚ)) * 100
      fractionUnmapped := ((sum_unmap : ℚ) / (read.length : ℚ)) * 100 }

/-- `extract_main` without the file writes: classify, extract, then the
two statistics passes, propagating the runtime errors of `unmapsum` and
`refstats`. -/
def extract_main (read : Dna) (table : CoordTable) (pre : String) (flanking : Int) :
    Except String (PyDict × PyDict × PyDict × List UnmapRow × RefStats) := do
  let q := regions table
  let e := refextract read q.1 q.2.1 q.2.2.1 pre flanking
  let us ← unmapsum e.2.1 e.2.2.1
  let rs ← refstats read q.1 q.2.1 q.2.2.1 q.2.2.2
  Except.ok (e.1, e.2.1, e.2.2.2, us, rs)

/-- Modelled from the spec (claim C4 wording): the extracted substring
restricted to indices `[max(0, start - flanking), min(length, end + flanking))`,
with out-of-range bounds clamped to the sequence ends. -/
def specSlice (read : Dna) (s e f : Int) : Dna :=
  (read.take (min (read.length : Int) (e + f)).toNat).drop (max 0 (s - f)).toNat

/-! ### Helper lemmas about the embedded primitives -/

theorem pySlice_of_nonneg (xs : List α) (a b : Int) (ha : 0 ≤ a) (hb : 0 ≤ b) :
    pySlice xs a b = (xs.take (min ((xs.length : Int)) b).toNat).drop (max 0 a).toNat := by
  unfold pySlice pyIndex
  rw [if_neg (by omega), if_neg (by omega)]
  have h1 : (min ((xs.length : Int)) b).toNat = min b.toNat xs.length := by omega
  have h2 : (max (0 : Int) a).toNat = a.toNat := by omega
  rw [h1, h2]
  rcases le_or_lt a.toNat xs.length with h | h
  · rw [min_eq_left h]
  · rw [min_eq_right h.le]
    rw [List.drop_eq_nil_of_le (by simp only [List.length_take]; omega),
      List.drop_eq_nil_of_le (by simp only [List.length_take]; omega)]

theorem dictPopD_cons_self [DecidableEq κ] (k : κ) (v : ν) (d : List (κ × ν)) (dflt : ν) :
    dictPopD ((k, v) :: d) k dflt = (v, d) := by
  simp [dictPopD]

theorem dictInsert_append [DecidableEq κ] (d₁ d₂ : List (κ × ν)) (k : κ) (v : ν)
    (h : ∀ p ∈ d₁, p.1 ≠ k) : dictInsert (d₁ ++ d₂) k v = d₁ ++ dictInsert d₂ k v := by
  induction d₁ with
  | nil => simp
  | cons a d₁ ih =>
      obtain ⟨k', v'⟩ := a
      have hk' : k' ≠ k := h (k', v') (by simp)
      simp only [List.cons_append, dictInsert, if_neg hk', List.cons.injEq, true_and]
      exact ih fun p hp => h p (by simp [hp])

theorem dictInsert_of_notmem [DecidableEq κ] (d : List (κ × ν)) (k : κ) (v : ν)
    (h : k ∉ d.map Prod.fst) : dictInsert d k v = d ++ [(k, v)] := by
  induction d with
  | nil => rfl
  | cons a d ih =>
      obtain ⟨k', v'⟩ := a
      simp only [List.map_cons, List.mem_cons] at h
      push_neg at h
      simp only [dictInsert, if_neg (Ne.symm h.1), List.cons_append, List.cons.injEq, true_and]
      exact ih h.2

theorem keys_dictInsert [DecidableEq κ] (d : List (κ × ν)) (k : κ) (v : ν) :
    (dictInsert d k v).map Prod.fst =
      if k ∈ d.map Prod.fst then d.map Prod.fst else d.map Prod.fst ++ [k] := by
  induction d with
  | nil => simp [dictInsert]
  | cons a d ih =>
      obtain ⟨k', v'⟩ := a
      by_cases hk : k' = k
      · subst hk
        simp [dictInsert]
      · simp only [dictInsert, if_neg hk, List.map_cons, ih, List.mem_cons]
        by_cases hm : k ∈ d.map Prod.fst
        · simp [hm]
        · simp [hm, Ne.symm hk]

theorem dictLookup_insert_self [DecidableEq κ] (d : List (κ × ν)) (k : κ) (v : ν) :
    dictLookup (dictInsert d k v) k = some v := by
  induction d with
  | nil => simp [dictInsert, dictLookup, List.find?]
  | cons a d ih =>
      obtain ⟨k', v'⟩ := a
      by_cases hk : k' = k
      · subst hk
        simp [dictInsert, dictLookup, List.find?]
      · simp only [dictInsert, if_neg hk]
        simpa [dictLookup, List.find?_cons, hk] using ih

theorem dictLookup_insert_ne [DecidableEq κ] (d : List (κ × ν)) (k' k : κ) (v : ν)
    (h : k' ≠ k) : dictLookup (dictInsert d k' v) k = dictLookup d k := by
  induction d with
  | nil => simp [dictInsert, dictLookup, List.find?, h]
  | cons a d ih =>
      obtain ⟨k'', v''⟩ := a
      by_cases hk : k'' = k'
      · subst hk
        simp [dictInsert, dictLookup, List.find?_cons, h]
      · simp only [dictInsert, if_neg hk]
        by_cases hkk : k'' = k
        · simp [dictLookup, List.find?_cons, hkk]
        · simpa [dictLookup, List.find?_cons, hkk] using ih

/-- Net effect of the rekeying loop: insert the labelled values one after
another into an accumulator dictionary, with Python update semantics. -/
def strInsertAll (d : PyDict) (ps : List (String × Dna)) : PyDict :=
  ps.foldl (fun acc p => dictInsert acc (Sum.inr p.1) p.2) d

theorem strInsertAll_nil (d : PyDict) : strInsertAll d [] = d := rfl

theorem strInsertAll_cons (d : PyDict) (p : String × Dna) (ps : List (String × Dna)) :
    strInsertAll d (p :: ps) = strInsertAll (dictInsert d (Sum.inr p.1) p.2) ps := rfl

/-- The integer-keyed tail of the dictionary while the rekeying loop is
at index `k`. -/
def suffixDict (k : Nat) (vals : List Dna) : PyDict :=
  (vals.enumFrom k).map fun p => (Sum.inl p.1, p.2)

theorem suffixDict_cons (k : Nat) (v : Dna) (vs : List Dna) :
    suffixDict k (v :: vs) = (Sum.inl k, v) :: suffixDict (k + 1) vs := by
  simp [suffixDict, List.enumFrom_cons]

theorem suffixDict_keys_inl (k : Nat) (vals : List Dna) :
    ∀ p ∈ suffixDict k vals, ∃ i, p.1 = Sum.inl i := by
  intro p hp
  simp only [suffixDict, List.mem_map] at hp
  obtain ⟨q, _, rfl⟩ := hp
  exact ⟨q.1, rfl⟩

theorem initDict_eq_suffixDict (vals : List Dna) : initDict vals = suffixDict 0 vals := rfl

theorem dictInsert_forall_keys [DecidableEq κ] {P : κ → Prop} (d : List (κ × ν)) (k : κ) (v : ν)
    (hd : ∀ p ∈ d, P p.1) (hk : P k) : ∀ p ∈ dictInsert d k v, P p.1 := by
  induction d with
  | nil => simpa [dictInsert]
  | cons a d ih =>
      obtain ⟨k', v'⟩ := a
      by_cases h : k' = k
      · subst h
        simp only [dictInsert, if_pos rfl]
        intro p hp
        rcases List.mem_cons.1 hp with rfl | hp
        · exact hd (k', v') (by simp)
        · exact hd p (by simp [hp])
      · simp only [dictInsert, if_neg h]
        intro p hp
        rcases List.mem_cons.1 hp with rfl | hp
        · exact hd (k', v') (by simp)
        · exact ih (fun q hq => hd q (by simp [hq])) p hp

theorem rekeyStep_shift (k : Nat) (v : Dna) (suffix acc : PyDict) (lbl : String)
    (hsuf : ∀ p ∈ suffix, ∃ i, p.1 = Sum.inl i) :
    rekeyStep ((Sum.inl k, v) :: (suffix ++ acc)) k lbl =
      suffix ++ dictInsert acc (Sum.inr lbl) v := by
  unfold rekeyStep
  rw [dictPopD_cons_self]
  exact dictInsert_append suffix acc _ _ fun p hp => by
    obtain ⟨i, hi⟩ := hsuf p hp
    simp [hi]

theorem rekey_aux (vals : List Dna) :
    ∀ (k : Nat) (acc : PyDict) (lbls : List String),
      (∀ p ∈ acc, ∃ s, p.1 = Sum.inr s) →
      k + vals.length ≤ lbls.length →
      (List.range' k vals.length).foldl (fun a i => rekeyStep a i (lbls.getD i ""))
          (suffixDict k vals ++ acc)
        = strInsertAll acc ((lbls.drop k).zip vals) := by
  induction vals with
  | nil =>
      intro k acc lbls _ _
      simp [suffixDict, strInsertAll]
  | cons v vs ih =>
      intro k acc lbls hacc hlen
      have hk : k < lbls.length := by
        simp only [List.length_cons] at hlen
        omega
      rw [show (v :: vs).length = vs.length + 1 from rfl, List.range'_succ,
        List.foldl_cons, suffixDict_cons, List.cons_append,
        rekeyStep_shift k v (suffixDict (k + 1) vs) acc (lbls.getD k "")
          (suffixDict_keys_inl (k + 1) vs)]
      have hstep := ih (k + 1) (dictInsert acc (Sum.inr (lbls.getD k "")) v) lbls
        (dictInsert_forall_keys (P := fun key => ∃ s, key = Sum.inr s) acc _ v hacc
          ⟨lbls.getD k "", rfl⟩)
        (by simp only [List.length_cons] at hlen; omega)
      rw [hstep, List.drop_eq_getElem_cons hk, List.zip_cons_cons, strInsertAll_cons,
        List.getD_eq_getElem lbls "" hk]

theorem rekeyLoop_initDict (vals : List Dna) (lbls : List String)
    (h : vals.length ≤ lbls.length) :
    rekeyLoop (initDict vals) lbls = strInsertAll [] (lbls.zip vals) := by
  unfold rekeyLoop
  have hlen : (initDict vals).length = vals.length := by
    simp [initDict]
  rw [hlen, List.range_eq_range']
  have := rekey_aux vals 0 [] lbls (by simp) (by omega)
  simpa [initDict_eq_suffixDict] using this

/-- The key list produced by successive Python insertions: an existing
key keeps its position, a new key is appended. -/
def seenFold [DecidableEq κ] (ks ls : List κ) : List κ :=
  ls.foldl (fun acc k => if k ∈ acc then acc else acc ++ [k]) ks

theorem seenFold_nil [DecidableEq κ] (ks : List κ) : seenFold ks [] = ks := rfl

theorem seenFold_cons [DecidableEq κ] (ks : List κ) (a : κ) (ls : List κ) :
    seenFold ks (a :: ls) = seenFold (if a ∈ ks then ks else ks ++ [a]) ls := rfl

theorem keys_strInsertAll (ps : List (String × Dna)) :
    ∀ d : PyDict, (strInsertAll d ps).map Prod.fst =
      seenFold (d.map Prod.fst) (ps.map fun p => (Sum.inr p.1 : PyKey)) := by
  induction ps with
  | nil => intro d; rfl
  | cons p ps ih =>
      intro d
      rw [strInsertAll_cons, ih, List.map_cons, seenFold_cons, keys_dictInsert]

theorem mem_seenFold [DecidableEq κ] (ls : List κ) :
    ∀ (ks : List κ) (x : κ), x ∈ seenFold ks ls ↔ x ∈ ks ∨ x ∈ ls := by
  induction ls with
  | nil => intro ks x; simp [seenFold_nil]
  | cons a ls ih =>
      intro ks x
      rw [seenFold_cons, ih]
      by_cases ha : a ∈ ks
      · rw [if_pos ha]
        constructor
        · rintro (h | h)
          · exact Or.inl h
          · exact Or.inr (List.mem_cons_of_mem a h)
        · rintro (h | h)
          · exact Or.inl h
          · rcases List.mem_cons.1 h with rfl | h
            · exact Or.inl ha
            · exact Or.inr h
      · rw [if_neg ha]
        simp only [List.mem_append, List.mem_singleton, List.mem_cons]
        tauto

theorem seenFold_nodup [DecidableEq κ] (ls : List κ) :
    ∀ ks : List κ, ks.Nodup → (seenFold ks ls).Nodup := by
  induction ls with
  | nil => intro ks h; simpa [seenFold_nil]
  | cons a ls ih =>
      intro ks h
      rw [seenFold_cons]
      by_cases ha : a ∈ ks
      · rw [if_pos ha]; exact ih ks h
      · rw [if_neg ha]
        refine ih _ ?_
        simp [List.nodup_append, h, ha]

theorem seenFold_length_le [DecidableEq κ] (ls : List κ) :
    ∀ ks : List κ, (seenFold ks ls).length ≤ ks.length + ls.length := by
  induction ls with
  | nil => intro ks; simp [seenFold_nil]
  | cons a ls ih =>
      intro ks
      rw [seenFold_cons]
      by_cases ha : a ∈ ks
      · rw [if_pos ha]
        have := ih ks
        simp only [List.length_cons]
        omega
      · rw [if_neg ha]
        have := ih (ks ++ [a])
        simp only [List.length_append, List.length_singleton, List.length_cons, List.length_nil] at *
        omega

theorem seenFold_length_lt [DecidableEq κ] (ls : List κ) :
    ∀ ks : List κ, ((∃ x ∈ ls, x ∈ ks) ∨ ¬ ls.Nodup) →
      (seenFold ks ls).length < ks.length + ls.length := by
  induction ls with
  | nil =>
      intro ks h
      rcases h with ⟨x, hx, _⟩ | h
      · exact absurd hx (List.not_mem_nil x)
      · exact absurd List.nodup_nil h
  | cons a ls ih =>
      intro ks h
      rw [seenFold_cons]
      by_cases ha : a ∈ ks
      · rw [if_pos ha]
        have := seenFold_length_le ls ks
        simp only [List.length_cons]
        omega
      · rw [if_neg ha]
        have hlt : (∃ x ∈ ls, x ∈ ks ++ [a]) ∨ ¬ ls.Nodup := by
          rcases h with ⟨x, hx, hxk⟩ | h
          · rcases List.mem_cons.1 hx with rfl | hx
            · exact absurd hxk ha
            · exact Or.inl ⟨x, hx, List.mem_append_left _ hxk⟩
          · rw [List.nodup_cons] at h
            push_neg at h
            by_cases hal : a ∈ ls
            · exact Or.inl ⟨a, hal, List.mem_append_right _ (List.mem_singleton_self a)⟩
            · exact Or.inr (h hal)
        have := ih (ks ++ [a]) hlt
        simp only [List.length_append, List.length_singleton, List.length_cons, List.length_nil] at *
        omega

theorem strInsertAll_fresh (ps : List (String × Dna)) :
    ∀ d : PyDict, (ps.map Prod.fst).Nodup →
      (∀ p ∈ ps, (Sum.inr p.1 : PyKey) ∉ d.map Prod.fst) →
      strInsertAll d ps = d ++ ps.map fun p => ((Sum.inr p.1 : PyKey), p.2) := by
  induction ps with
  | nil => intro d _ _; simp [strInsertAll_nil]
  | cons p ps ih =>
      intro d hnd hfresh
      rw [strInsertAll_cons,
        dictInsert_of_notmem d _ p.2 (hfresh p (List.mem_cons_self p ps))]
      rw [List.map_cons, List.nodup_cons] at hnd
      have hfresh' : ∀ q ∈ ps, (Sum.inr q.1 : PyKey) ∉ (d ++ [(Sum.inr p.1, p.2)]).map Prod.fst := by
        intro q hq
        simp only [List.map_append, List.mem_append, List.map_cons, List.map_nil,
          List.mem_singleton]
        push_neg
        refine ⟨hfresh q (List.mem_cons_of_mem p hq), ?_⟩
        intro hcontra
        exact hnd.1 (by
          have : q.1 = p.1 := by simpa using hcontra
          rw [← this]
          exact List.mem_map_of_mem Prod.fst hq)
      rw [ih (d ++ [(Sum.inr p.1, p.2)]) hnd.2 hfresh', List.append_assoc]
      rfl

theorem dictLookup_strInsertAll (ps : List (String × Dna)) :
    ∀ (d : PyDict) (lbl : String),
      dictLookup (strInsertAll d ps) (Sum.inr lbl) =
        match (ps.filter fun p => decide (p.1 = lbl)).getLast? with
        | some q => some q.2
        | none => dictLookup d (Sum.inr lbl) := by
  induction ps with
  | nil => intro d lbl; simp [strInsertAll_nil]
  | cons p ps ih =>
      intro d lbl
      rw [strInsertAll_cons, ih]
      by_cases hp : p.1 = lbl
      · subst hp
        rcases hfilter : ps.filter (fun q => decide (q.1 = p.1)) with _ | ⟨q, qs⟩
        · have hfc : (p :: ps).filter (fun q => decide (q.1 = p.1)) = [p] := by
            simp [List.filter_cons, hfilter]
          rw [hfilter, hfc]
          exact dictLookup_insert_self d (Sum.inr p.1) p.2
        · have hfc : (p :: ps).filter (fun q => decide (q.1 = p.1)) = p :: q :: qs := by
            simp [List.filter_cons, hfilter]
          rw [hfilter, hfc, List.getLast?_cons_cons]
          rcases hlast : (q :: qs).getLast? with _ | z
          · exact absurd (List.getLast?_eq_none_iff.1 hlast) (by simp)
          · rfl
      · have hfc : (p :: ps).filter (fun q => decide (q.1 = lbl)) = ps.filter (fun q => decide (q.1 = lbl)) := by
          simp [List.filter_cons, hp]
        rw [hfc]
        rcases hlast : (ps.filter (fun q => decide (q.1 = lbl))).getLast? with _ | z
        · rw [hlast]
          exact dictLookup_insert_ne d (Sum.inr p.1) (Sum.inr lbl) p.2 (by simp [hp])
        · rw [hlast]

theorem aminoOrder_count_sum (l : List AminoAcid) :
    (aminoOrder.map fun a => l.count a).sum = l.length := by
  induction l with
  | nil => decide
  | cons x l ih =>
      have hx : (aminoOrder.map fun a => if (x == a) = true then 1 else 0).sum = 1 := by
        cases x <;> decide
      calc (aminoOrder.map fun a => (x :: l).count a).sum
          = (aminoOrder.map fun a => l.count a + if (x == a) = true then 1 else 0).sum := by
            simp only [List.count_cons]
        _ = (aminoOrder.map fun a => l.count a).sum
              + (aminoOrder.map fun a => if (x == a) = true then 1 else 0).sum :=
            List.sum_map_add
        _ = l.length + 1 := by rw [ih, hx]
        _ = (x :: l).length := by simp

theorem aminoOrder_totalCount_sum (codes : List (List AminoAcid)) :
    (aminoOrder.map fun a => totalCount a codes).sum = lenSeq codes := by
  induction codes with
  | nil => decide
  | cons c cs ih =>
      calc (aminoOrder.map fun a => totalCount a (c :: cs)).sum
          = (aminoOrder.map fun a => c.count a + totalCount a cs).sum := by
            simp only [totalCount, List.map_cons, List.sum_cons]
        _ = (aminoOrder.map fun a => c.count a).sum
              + (aminoOrder.map fun a => totalCount a cs).sum := List.sum_map_add
        _ = c.length + lenSeq cs := by rw [aminoOrder_count_sum, ih]
        _ = lenSeq (c :: cs) := by simp [lenSeq]

theorem spanSumLoop_eq_sum (locs : List CoordPair) :
    spanSumLoop locs = (locs.map fun p => |p.2 - p.1|).sum := by
  have key : ∀ (l : List CoordPair) (init : Int),
      l.foldl (fun acc p => acc + |p.2 - p.1|) init = init + (l.map fun p => |p.2 - p.1|).sum := by
    intro l
    induction l with
    | nil => intro init; simp
    | cons p l ih =>
        intro init
        rw [List.foldl_cons, ih, List.map_cons, List.sum_cons]
        ring
  simpa using key locs 0

/-! ### Concrete inputs used by witnesses and counterexamples -/

/-- An eight-base reference sequence `ACGTACGT`. -/
def refSeq8 : Dna := [.A, .C, .G, .T, .A, .C, .G, .T]

/-! ### Claim C1 -/

/-- Claim C1 (counterexample): the record `(1, 2, 0, 5)` satisfies none of
the three predicates, and the all-zero record satisfies both the unmapped
and the conflict predicate, so the three predicates do not partition the
space of coordinate records. -/
theorem claim1_counterexample :
    (mappedP ⟨1, 2, 0, 5⟩ = false ∧ unmappedP ⟨1, 2, 0, 5⟩ = false ∧
      conflictP ⟨1, 2, 0, 5⟩ = false) ∧
    (unmappedP ⟨0, 0, 0, 0⟩ = true ∧ conflictP ⟨0, 0, 0, 0⟩ = true) := by
  decide

/-- Claim C1 (amended): on records whose reference pair and assembly pair
are each either both positive or both zero, and which are not all zero,
exactly one of the classifier predicates mapped, unmapped, conflict
holds. -/
theorem claim1_partition (r : CoordRecord)
    (h0 : (0 < r.seq0_leftend ∧ 0 < r.seq0_rightend) ∨
      (r.seq0_leftend = 0 ∧ r.seq0_rightend = 0))
    (h1 : (0 < r.seq1_leftend ∧ 0 < r.seq1_rightend) ∨
      (r.seq1_leftend = 0 ∧ r.seq1_rightend = 0))
    (hnz : ¬(r.seq0_leftend = 0 ∧ r.seq0_rightend = 0 ∧
      r.seq1_leftend = 0 ∧ r.seq1_rightend = 0)) :
    (mappedP r = true ∧ unmappedP r = false ∧ conflictP r = false) ∨
    (mappedP r = false ∧ unmappedP r = true ∧ conflictP r = false) ∨
    (mappedP r = false ∧ unmappedP r = false ∧ conflictP r = true) := by
  rcases h0 with ⟨ha, hb⟩ | ⟨ha, hb⟩ <;> rcases h1 with ⟨hc, hd⟩ | ⟨hc, hd⟩
  · left
    refine ⟨?_, ?_, ?_⟩ <;> simp [mappedP, unmappedP, conflictP] <;> omega
  · right; left
    refine ⟨?_, ?_, ?_⟩ <;> simp [mappedP, unmappedP, conflictP] <;> omega
  · right; right
    refine ⟨?_, ?_, ?_⟩ <;> simp [mappedP, unmappedP, conflictP] <;> omega
  · exact absurd ⟨ha, hb, hc, hd⟩ hnz

/-- Witness for the amended claim C1 at the record `(3, 4, 1, 2)`. -/
theorem claim1_witness :
    (mappedP ⟨3, 4, 1, 2⟩ = true ∧ unmappedP ⟨3, 4, 1, 2⟩ = false ∧
      conflictP ⟨3, 4, 1, 2⟩ = false) ∨
    (mappedP ⟨3, 4, 1, 2⟩ = false ∧ unmappedP ⟨3, 4, 1, 2⟩ = true ∧
      conflictP ⟨3, 4, 1, 2⟩ = false) ∨
    (mappedP ⟨3, 4, 1, 2⟩ = false ∧ unmappedP ⟨3, 4, 1, 2⟩ = false ∧
      conflictP ⟨3, 4, 1, 2⟩ = true) :=
  claim1_partition ⟨3, 4, 1, 2⟩ (by decide) (by decide) (by decide)

/-! ### Claim C2 -/

/-- Claim C2 (counterexample): on the one-row table with reference pair
`(-5, -3)` and assembly pair `(1, 2)`, the pair `(-5, -3)` is selected
into the reverse table but is not in the mapped table, so the reverse
category is not a subset of the mapped category. -/
theorem claim2_counterexample :
    ((-5 : Int), (-3 : Int)) ∈ reverselocations [⟨-5, -3, 1, 2⟩] ∧
    ((-5 : Int), (-3 : Int)) ∉ mappedlocations [⟨-5, -3, 1, 2⟩] := by
  decide

/-- Claim C2 (amended): every row selected into the reverse table has
both reference endpoints negative, hence fails the reference-positive
part of the mapped predicate: the reverse and mapped tables are disjoint,
not in a subset relation. -/
theorem claim2_reverse_disjoint (t : CoordTable) (p : CoordPair)
    (hp : p ∈ reverselocations t) :
    p.1 < 0 ∧ p.2 < 0 ∧ p ∉ mappedlocations t := by
  obtain ⟨h1, h2⟩ := reverselocations_mem t p hp
  refine ⟨h1, h2, ?_⟩
  intro hmem
  simp only [mappedlocations, List.mem_filter, Bool.and_eq_true, decide_eq_true_eq] at hmem
  omega

/-- Witness for the amended claim C2 at the one-row table above. -/
theorem claim2_witness :
    ((-5 : Int), (-3 : Int)) ∈ reverselocations [⟨-5, -3, 1, 2⟩] ∧
    (((-5 : Int), (-3 : Int)).1 < 0 ∧ ((-5 : Int), (-3 : Int)).2 < 0 ∧
      ((-5 : Int), (-3 : Int)) ∉ mappedlocations [⟨-5, -3, 1, 2⟩]) :=
  ⟨by decide, claim2_reverse_disjoint [⟨-5, -3, 1, 2⟩] (-5, -3) (by decide)⟩

/-! ### Claim C3 -/

/-- Claim C3: on an empty backbone table the classifier does return four
empty category tables, but the pipeline then crashes: `unmapsum` executes
`codes.clear()` after its loop, and with no unmapped region the loop body
never ran, so `codes` is unbound and a `NameError` is raised instead of
the claimed normal completion. -/
theorem claim3_empty_table_crash :
    regions [] = ([], [], [], []) ∧
    extract_main refSeq8 [] "p" 0 = Except.error "NameError: name codes is not defined" :=
  ⟨rfl, rfl⟩

/-! ### Claim C5 -/

/-- Claim C5: a zero-length extracted region (here the row `(5, 5)` with
flanking 0) makes `unmapsum` divide by `len_seq = 0`: the run aborts with
an unguarded `ZeroDivisionError` and the remaining region `(1, 4)` of the
batch is never processed, although on its own it is processable. -/
theorem claim5_zero_length_crash :
    extract_main refSeq8 [⟨5, 5, 0, 0⟩, ⟨1, 4, 0, 0⟩] "p" 0 =
      Except.error "ZeroDivisionError: division by zero" ∧
    (unmapsum [(Sum.inr "p_1:4", [.C, .G, .T])] ["p_1:4"]).isOk = true :=
  ⟨rfl, rfl⟩

/-! ### Claim C4 -/

/-- Claim C4 (counterexample): with reference `ACGTACGT`, row `(1, 2)` and
flanking 3, the flank-adjusted start `1 - 3 = -2` is negative, so Python
slicing wraps it around to index 6 and extracts the empty string, while
the claimed clamped slice `[max(0, -2), min(8, 5))` is `ACGTA`: the
extracted substring is not the claimed one. -/
theorem claim4_counterexample :
    unmapvalsOf refSeq8 3 [(1, 2)] = [([] : Dna)] ∧
    specSlice refSeq8 1 2 3 = [.A, .C, .G, .T, .A] ∧
    ([([] : Dna)] : List Dna) ≠ [[.A, .C, .G, .T, .A]] := by
  refine ⟨rfl, rfl, by decide⟩

/-- Claim C4 (amended): for every unmapped row whose flank-adjusted
bounds `start - flanking` and `end + flanking` are both non-negative, the
extracted substring is exactly the reference restricted to
`[max(0, start - flanking), min(length, end + flanking))`, with bounds
beyond the sequence end silently clamped; when a flank-adjusted bound is
negative, Python slicing wraps it around from the end of the sequence
instead of clamping it to 0. -/
theorem claim4_flank_clamp (read : Dna) (locs : List CoordPair) (f : Int) (i : Nat)
    (hi : i < locs.length)
    (h1 : 0 ≤ (locs.get ⟨i, hi⟩).1 - f) (h2 : 0 ≤ (locs.get ⟨i, hi⟩).2 + f) :
    (unmapvalsOf read f locs).get? i =
      some (specSlice read (locs.get ⟨i, hi⟩).1 (locs.get ⟨i, hi⟩).2 f) := by
  have hp := pySlice_of_nonneg read ((locs.get ⟨i, hi⟩).1 - f) ((locs.get ⟨i, hi⟩).2 + f) h1 h2
  simp only [unmapvalsOf, List.get?_map, List.get?_eq_get hi, Option.map_some']
  rw [hp]
  rfl

/-- Witness for the amended claim C4: row `(3, 5)` with flanking 2 on the
eight-base reference. -/
theorem claim4_witness :
    (0 : Nat) < ([((3 : Int), (5 : Int))] : List CoordPair).length ∧
    0 ≤ (3 : Int) - 2 ∧ 0 ≤ (5 : Int) + 2 ∧
    (unmapvalsOf refSeq8 2 [(3, 5)]).get? 0 = some (specSlice refSeq8 3 5 2) :=
  ⟨by decide, by decide, by decide,
    claim4_flank_clamp refSeq8 [(3, 5)] 2 0 (by decide) (by decide) (by decide)⟩

/-! ### Claim C6 -/

/-- Claim C6: for every region sequence whose six-frame translation is
non-empty, the 21 reported frequencies (each residue's total count across
all six frames divided by the total residue count across all six frames,
times 100) sum to 100. -/
theorem claim6_freq_sum (dna : Dna) (h : 0 < lenSeq (sixFrameCodes dna)) :
    (aminoFreqs dna).sum = 100 := by
  have hNne : ((lenSeq (sixFrameCodes dna) : ℚ)) ≠ 0 := by
    exact_mod_cast Nat.pos_iff_ne_zero.1 h
  calc (aminoFreqs dna).sum
      = (aminoOrder.map fun a => (totalCount a (sixFrameCodes dna) : ℚ) *
          (((lenSeq (sixFrameCodes dna) : ℚ))⁻¹ * 100)).sum := by
        unfold aminoFreqs
        simp only [div_eq_mul_inv, mul_assoc]
    _ = (aminoOrder.map fun a => (totalCount a (sixFrameCodes dna) : ℚ)).sum *
          (((lenSeq (sixFrameCodes dna) : ℚ))⁻¹ * 100) := List.sum_map_mul_right _ _ _
    _ = ((lenSeq (sixFrameCodes dna) : ℚ)) * (((lenSeq (sixFrameCodes dna) : ℚ))⁻¹ * 100) := by
        congr 1
        rw [← aminoOrder_totalCount_sum (sixFrameCodes dna), Nat.cast_list_sum, List.map_map]
        rfl
    _ = 100 := by field_simp

/-- Witness for claim C6 at the three-base sequence `ATG`. -/
theorem claim6_witness :
    0 < lenSeq (sixFrameCodes [.A, .T, .G]) ∧
    (aminoFreqs [.A, .T, .G]).sum = 100 :=
  ⟨by decide, claim6_freq_sum [.A, .T, .G] (by decide)⟩

/-! ### Claim C7 -/

/-- Claim C7: for every set of category tables and non-empty reference,
`refstats` reports fractions equal to the summed interval spans of the
mapped, conflict and reverse tables (respectively of the unmapped table)
divided by the reference length, times 100, and a mapped-region count
equal to the row counts of mapped plus reverse plus conflict. -/
theorem claim7_refstats (read : Dna) (m u c r : List CoordPair) (h : 0 < read.length) :
    refstats read m u c r = Except.ok
      { gcContent := gcOf read
        refLength := read.length
        numberMappedRegions := m.length + r.length + c.length
        numberUnmappedRegions := u.length
        fractionMapped :=
          ((((m.map fun p => |p.2 - p.1|).sum + (c.map fun p => |p.2 - p.1|).sum
              + (r.map fun p => |p.2 - p.1|).sum : ℤ) : ℚ) / (read.length : ℚ)) * 100
        fractionUnmapped :=
          ((((u.map fun p => |p.2 - p.1|).sum : ℤ) : ℚ) / (read.length : ℚ)) * 100 } := by
  unfold refstats
  rw [if_neg (by omega)]
  simp only [spanSumLoop_eq_sum]

/-- Witness for claim C7: one mapped row `(1, 3)` and one unmapped row
`(4, 6)` over the eight-base reference. -/
theorem claim7_witness :
    0 < refSeq8.length ∧
    refstats refSeq8 [(1, 3)] [(4, 6)] [] [] = Except.ok
      { gcContent := 50, refLength := 8, numberMappedRegions := 1,
        numberUnmappedRegions := 1, fractionMapped := 25, fractionUnmapped := 25 } := by
  refine ⟨by decide, ?_⟩
  rw [claim7_refstats refSeq8 [(1, 3)] [(4, 6)] [] [] (by decide)]
  have hg : List.count Nucleotide.G refSeq8 = 2 := by decide
  have hc : List.count Nucleotide.C refSeq8 = 2 := by decide
  have hlen : refSeq8.length = 8 := by decide
  norm_num [gcOf, hg, hc, hlen]

/-! ### Dictionary-shape helpers for the extraction claims -/

theorem builddict_of_nodup (vals : List Dna) (lbls : List String)
    (hlen : vals.length = lbls.length) (hnd : lbls.Nodup) :
    rekeyLoop (initDict vals) lbls = (lbls.zip vals).map fun p => ((Sum.inr p.1 : PyKey), p.2) := by
  rw [rekeyLoop_initDict vals lbls (le_of_eq hlen)]
  have hkeys : (lbls.zip vals).map Prod.fst = lbls :=
    List.map_fst_zip _ _ (le_of_eq hlen.symm)
  rw [strInsertAll_fresh (lbls.zip vals) [] (by rw [hkeys]; exact hnd) (by simp)]
  simp

theorem builddict_keys (vals : List Dna) (lbls : List String)
    (hlen : vals.length = lbls.length) :
    (rekeyLoop (initDict vals) lbls).map Prod.fst = seenFold [] (lbls.map Sum.inr) := by
  rw [rekeyLoop_initDict vals lbls (le_of_eq hlen), keys_strInsertAll]
  have hkeys : ((lbls.zip vals).map fun p => (Sum.inr p.1 : PyKey)) = lbls.map Sum.inr := by
    rw [show (fun p : String × Dna => (Sum.inr p.1 : PyKey)) = (Sum.inr ∘ Prod.fst) from rfl,
      ← List.map_map, List.map_fst_zip _ _ (le_of_eq hlen.symm)]
  rw [hkeys]
  rfl

theorem builddict_length_lt (vals : List Dna) (lbls : List String)
    (hlen : vals.length = lbls.length) (hnd : ¬ lbls.Nodup) :
    (rekeyLoop (initDict vals) lbls).length < lbls.length := by
  have hkeys := builddict_keys vals lbls hlen
  have hL : (rekeyLoop (initDict vals) lbls).length
      = ((rekeyLoop (initDict vals) lbls).map Prod.fst).length := (List.length_map _ _).symm
  rw [hL, hkeys]
  have hmap : ¬ (lbls.map (Sum.inr : String → PyKey)).Nodup := fun h => hnd h.of_map
  have := seenFold_length_lt (lbls.map (Sum.inr : String → PyKey)) [] (Or.inr hmap)
  simpa using this

theorem builddict_count_one (vals : List Dna) (lbls : List String)
    (hlen : vals.length = lbls.length) (lbl : String) (hmem : lbl ∈ lbls) :
    ((rekeyLoop (initDict vals) lbls).map Prod.fst).countP
      (fun k => decide (k = (Sum.inr lbl : PyKey))) = 1 := by
  rw [builddict_keys vals lbls hlen]
  have hone : @List.count PyKey instBEqOfDecidableEq (Sum.inr lbl)
      (seenFold [] (lbls.map Sum.inr)) = 1 := by
    refine List.count_eq_one_of_mem
      (seenFold_nodup (lbls.map (Sum.inr : String → PyKey)) [] List.nodup_nil) ?_
    rw [mem_seenFold]
    exact Or.inr (List.mem_map_of_mem Sum.inr hmem)
  exact hone

theorem strInsertAll_lookup_map (g : CoordPair → String) (h : CoordPair → Dna)
    (locs : List CoordPair) (lbl : String) :
    dictLookup (strInsertAll [] (locs.map fun q => (g q, h q))) (Sum.inr lbl)
      = ((locs.filter fun q => decide (g q = lbl)).getLast?).map h := by
  rw [dictLookup_strInsertAll]
  have hc : ((fun p : String × Dna => decide (p.1 = lbl)) ∘ fun q => (g q, h q))
      = fun q => decide (g q = lbl) := rfl
  rw [List.filter_map, hc, List.getLast?_map]
  cases hx : (locs.filter fun q => decide (g q = lbl)).getLast? with
  | none => simp [hx, dictLookup]
  | some q => simp [hx]

/-! ### Claim C8 -/

/-- Claim C8 (counterexample): with the two identical mapped rows
`(1, 2), (1, 2)` the two labels coincide, the mapped dictionary collapses
to a single entry, and there is no entry at position 1 for the second
row: extraction is not entry-per-row order-preserving in general. -/
theorem claim8_counterexample :
    (refextract refSeq8 [(1, 2), (1, 2)] [] [] "p" 0).1.get? 1 = none ∧
    ([((1 : Int), (2 : Int)), (1, 2)] : List CoordPair).length = 2 := by
  refine ⟨rfl, rfl⟩

/-- Claim C8 (amended): when the labels of a category table are pairwise
distinct, extraction is order-preserving: each of the three dictionaries
equals the ordered list that pairs the i-th label with the i-th extracted
substring. -/
theorem claim8_order (read : Dna) (m u c : List CoordPair) (pre : String) (f : Int)
    (hm : (idmapOf pre m).Nodup) (hu : (idunmapOf pre f u).Nodup)
    (hc : (idconflictOf pre c).Nodup) :
    (refextract read m u c pre f).1
        = ((idmapOf pre m).zip (mapvalsOf read m)).map (fun p => (Sum.inr p.1, p.2)) ∧
    (refextract read m u c pre f).2.1
        = ((idunmapOf pre f u).zip (unmapvalsOf read f u)).map (fun p => (Sum.inr p.1, p.2)) ∧
    (refextract read m u c pre f).2.2.2
        = ((idconflictOf pre c).zip (conflictvalsOf read c)).map (fun p => (Sum.inr p.1, p.2)) := by
  refine ⟨?_, ?_, ?_⟩
  · exact builddict_of_nodup (mapvalsOf read m) (idmapOf pre m)
      (by simp [mapvalsOf, idmapOf]) hm
  · exact builddict_of_nodup (unmapvalsOf read f u) (idunmapOf pre f u)
      (by simp [unmapvalsOf, idunmapOf]) hu
  · exact builddict_of_nodup (conflictvalsOf read c) (idconflictOf pre c)
      (by simp [conflictvalsOf, idconflictOf]) hc

/-- Witness for the amended claim C8: two distinct mapped rows over the
eight-base reference. -/
theorem claim8_witness :
    (idmapOf "p" [((1 : Int), (2 : Int)), (3, 5)]).Nodup ∧
    (refextract refSeq8 [(1, 2), (3, 5)] [] [] "p" 0).1
      = ((idmapOf "p" [(1, 2), (3, 5)]).zip (mapvalsOf refSeq8 [(1, 2), (3, 5)])).map
          (fun p => (Sum.inr p.1, p.2)) :=
  ⟨by decide,
    (claim8_order refSeq8 [(1, 2), (3, 5)] [] [] "p" 0 (by decide) (by decide) (by decide)).1⟩

/-! ### Claim C9 -/

/-- Claim C9: the label attached to the i-th unmapped row `(s, e)` is
exactly `prefix_(s-f):(e+f)`, and the label attached to the i-th mapped
or conflict row is `prefix_s:e` with the raw coordinates. -/
theorem claim9_labels (read : Dna) (m u c : List CoordPair) (pre : String) (f : Int) :
    (∀ i (hi : i < u.length),
      (refextract read m u c pre f).2.2.1.get? i
        = some (pre ++ "_" ++ toString ((u.get ⟨i, hi⟩).1 - f) ++ ":"
            ++ toString ((u.get ⟨i, hi⟩).2 + f))) ∧
    (∀ i (hi : i < m.length),
      (idmapOf pre m).get? i
        = some (pre ++ "_" ++ toString (m.get ⟨i, hi⟩).1 ++ ":"
            ++ toString (m.get ⟨i, hi⟩).2)) ∧
    (∀ i (hi : i < c.length),
      (idconflictOf pre c).get? i
        = some (pre ++ "_" ++ toString (c.get ⟨i, hi⟩).1 ++ ":"
            ++ toString (c.get ⟨i, hi⟩).2)) := by
  refine ⟨?_, ?_, ?_⟩
  · intro i hi
    show (idunmapOf pre f u).get? i = _
    simp only [idunmapOf, List.get?_map, List.get?_eq_get hi, Option.map_some']
  · intro i hi
    simp only [idmapOf, List.get?_map, List.get?_eq_get hi, Option.map_some']
  · intro i hi
    simp only [idconflictOf, List.get?_map, List.get?_eq_get hi, Option.map_some']

/-- Witness for claim C9: the unmapped row `(3, 5)` with flanking 2 gets
the label `p_1:7`. -/
theorem claim9_witness :
    (0 : Nat) < ([((3 : Int), (5 : Int))] : List CoordPair).length ∧
    (refextract refSeq8 [] [(3, 5)] [] "p" 2).2.2.1.get? 0 = some "p_1:7" := by
  refine ⟨by decide, ?_⟩
  have h := (claim9_labels refSeq8 [] [(3, 5)] [] "p" 2).1 0 (by decide)
  exact h.trans (by decide)

/-! ### Claim C10 -/

/-- Claim C10: if a category table has two rows with equal endpoints
(hence equal synthetic labels), the dictionary holds a single entry for
that label whose value is the substring of the last row bearing that
label, the dictionary has fewer entries than the table has rows, and the
entry count equals the row count only when all labels are distinct. -/
theorem claim10_duplicate_labels (read : Dna) (locs u c : List CoordPair) (pre : String)
    (f : Int) (i j : Nat) (hi : i < locs.length) (hj : j < locs.length) (hij : i ≠ j)
    (heq : locs.get ⟨i, hi⟩ = locs.get ⟨j, hj⟩) :
    ((refextract read locs u c pre f).1.map Prod.fst).countP
        (fun k => decide (k = (Sum.inr (pre ++ "_" ++ toString (locs.get ⟨i, hi⟩).1 ++ ":"
          ++ toString (locs.get ⟨i, hi⟩).2) : PyKey))) = 1 ∧
    dictLookup (refextract read locs u c pre f).1
        (Sum.inr (pre ++ "_" ++ toString (locs.get ⟨i, hi⟩).1 ++ ":"
          ++ toString (locs.get ⟨i, hi⟩).2))
      = ((locs.filter fun q => decide (pre ++ "_" ++ toString q.1 ++ ":" ++ toString q.2
            = pre ++ "_" ++ toString (locs.get ⟨i, hi⟩).1 ++ ":"
              ++ toString (locs.get ⟨i, hi⟩).2)).getLast?).map
          (fun q => pySlice read q.1 q.2) ∧
    (refextract read locs u c pre f).1.length < locs.length ∧
    (∀ locs' : List CoordPair,
      (refextract read locs' u c pre f).1.length = locs'.length →
        (idmapOf pre locs').Nodup) := by
  have hlen : (mapvalsOf read locs).length = (idmapOf pre locs).length := by
    simp [mapvalsOf, idmapOf]
  have hlblmem : (pre ++ "_" ++ toString (locs.get ⟨i, hi⟩).1 ++ ":"
      ++ toString (locs.get ⟨i, hi⟩).2) ∈ idmapOf pre locs := by
    simp only [idmapOf, List.mem_map]
    exact ⟨locs.get ⟨i, hi⟩, List.get_mem locs i hi, rfl⟩
  have hnodup : ¬ (idmapOf pre locs).Nodup := by
    intro hnd
    have hleni : i < (idmapOf pre locs).length := by simpa [idmapOf] using hi
    have hlenj : j < (idmapOf pre locs).length := by simpa [idmapOf] using hj
    have hinj := List.nodup_iff_injective_get.1 hnd
    have hgets : (idmapOf pre locs).get ⟨i, hleni⟩ = (idmapOf pre locs).get ⟨j, hlenj⟩ := by
      simp only [idmapOf, List.get_map]
      rw [heq]
    exact hij (by simpa using hinj hgets)
  refine ⟨?_, ?_, ?_, ?_⟩
  · exact builddict_count_one (mapvalsOf read locs) (idmapOf pre locs) hlen _ hlblmem
  · have hdict : (refextract read locs u c pre f).1
        = strInsertAll [] ((idmapOf pre locs).zip (mapvalsOf read locs)) :=
      rekeyLoop_initDict (mapvalsOf read locs) (idmapOf pre locs) (le_of_eq hlen)
    have hzip : (idmapOf pre locs).zip (mapvalsOf read locs)
        = locs.map fun q => (pre ++ "_" ++ toString q.1 ++ ":" ++ toString q.2,
            pySlice read q.1 q.2) := List.zip_map' _ _ locs
    rw [hdict, hzip]
    exact strInsertAll_lookup_map _ _ locs _
  · have h3 := builddict_length_lt (mapvalsOf read locs) (idmapOf pre locs) hlen hnodup
    simp only [idmapOf, List.length_map] at h3
    exact h3
  · intro locs' hlen'
    by_contra hnd
    have hlt := builddict_length_lt (mapvalsOf read locs') (idmapOf pre locs')
      (by simp [mapvalsOf, idmapOf]) hnd
    have heqlen : (rekeyLoop (initDict (mapvalsOf read locs')) (idmapOf pre locs')).length
        = locs'.length := hlen'
    have hL : (idmapOf pre locs').length = locs'.length := by simp [idmapOf]
    rw [hL] at hlt
    omega

/-- Witness for claim C10: the duplicate mapped rows `(1, 2), (1, 2)`
collapse to the single entry `p_1:2` and the dictionary is shorter than
the table. -/
theorem claim10_witness :
    [((1 : Int), (2 : Int)), (1, 2)].get ⟨0, by decide⟩
        = [((1 : Int), (2 : Int)), (1, 2)].get ⟨1, by decide⟩ ∧
    ((refextract refSeq8 [(1, 2), (1, 2)] [] [] "p" 0).1.map Prod.fst).countP
        (fun k => decide (k = (Sum.inr "p_1:2" : PyKey))) = 1 ∧
    (refextract refSeq8 [(1, 2), (1, 2)] [] [] "p" 0).1.length
      < ([((1 : Int), (2 : Int)), (1, 2)] : List CoordPair).length := by
  have h := claim10_duplicate_labels refSeq8 [(1, 2), (1, 2)] [] [] "p" 0 0 1
    (by decide) (by decide) (by decide) (by decide)
  exact ⟨by decide, h.1, h.2.2.1⟩
